import Mathlib

/-!
Shallow embedding of `calver_auto_release.py` (basnijholt/calver-auto-release).

The module computes a CalVer release tag for a git repository.  The git
layer (tag enumeration, commit log, push) is represented as explicit data
on a `Repo` value; every mutation the Python code performs (tag creation,
tag push, CI output-file write) is recorded in an explicit `Effects`
value returned alongside the function result.
-/

namespace CalverAutoRelease

/-- `DEFAULT_SKIP_PATTERNS` from the source module. -/
def DEFAULT_SKIP_PATTERNS : List String :=
  ["[skip release]", "[pre-commit.ci]", "⬆️ Update"]

/-- `DEFAULT_FOOTER` from the source module (Python implicit string
concatenation joined). -/
def DEFAULT_FOOTER : String :=
  "\n\n🙏 Thank you for using this project! Please report any issues or feedback on the GitHub repository."

/-- A git tag: its name and the committed timestamp of the commit it points
at (`tag.commit.committed_datetime`, as an integer timestamp). -/
structure Tag where
  name : String
  committedDatetime : Int
  deriving DecidableEq, Repr

/-- The slice of git repository state the module reads.
`headMessage` is `repo.head.commit.message`; `headTagged` is
`bool(repo.git.tag(points_at="HEAD"))`; `logSince t` is the output of
`repo.git.log(f"{t}..HEAD", "--pretty=format:%s")` for `t = some name`,
and of `repo.git.log("--pretty=format:%s")` for `t = none`: the commit
subjects joined by newlines, as git prints them. -/
structure Repo where
  tags : List Tag
  headMessage : String
  headTagged : Bool
  logSince : Option String → String

/-- The current UTC date (`datetime.datetime.now(tz=datetime.timezone.utc)`),
restricted to the fields the module reads. -/
structure Date where
  year : Nat
  month : Nat
  deriving DecidableEq, Repr

/-- Side effects performed by `create_release`: annotated tags created
(name, message), tag names pushed to `origin`, and lines appended to the
`GITHUB_OUTPUT` file. -/
structure Effects where
  createdTags : List (String × String)
  pushedTags : List String
  outputWrites : List String
  deriving DecidableEq, Repr

/-- The empty effect record: nothing created, pushed or written. -/
def noEffects : Effects := ⟨[], [], []⟩

/-- Python's `needle in haystack` on strings: `needle` occurs as a
contiguous substring of `haystack`. -/
def strIn (needle haystack : String) : Bool :=
  haystack.toList.tails.any fun t => needle.toList.isPrefixOf t

/-- Python's `s.split("\n")`: split on every newline, keeping empty
pieces. -/
def pySplitLines (s : String) : List String :=
  (s.toList.splitOn '\n').map List.asString

/-- Python's `"\n".join(xs)`. -/
def pyJoinLines (xs : List String) : String :=
  List.asString (List.intercalate ['\n'] (xs.map String.toList))

/-- `s.split("\n")[0]`: the text before the first newline. -/
def firstLine (s : String) : String :=
  (pySplitLines s).headD ""

/-- The result of `packaging.version.parse` on a simple release string,
restricted to the fields the module reads (`major`, `minor`, `micro`). -/
structure ParsedVersion where
  major : Nat
  minor : Nat
  micro : Nat
  deriving DecidableEq, Repr

/-- Decimal parse of one version component: all characters must be digits
and the component must be nonempty. -/
def charsToNat? (cs : List Char) : Option Nat :=
  if cs ≠ [] ∧ cs.all Char.isDigit then
    some (cs.foldl (fun n c => 10 * n + (c.toNat - '0'.toNat)) 0)
  else none

/-- Modelled from the spec: the `packaging` library dependency (not part of
this repository) parses a tag name as dot-separated non-negative decimal
integers, an optional leading letter `v`/`V` allowed; `major`/`minor`/`micro`
are the first three components (missing components default to 0); any
non-numeric component makes the whole name unparseable, which the library
reports as a `ValueError`, here `none`. -/
def parseVersion (name : String) : Option ParsedVersion :=
  let chars := name.toList
  let core :=
    if chars.head? = some 'v' ∨ chars.head? = some 'V' then chars.drop 1 else chars
  match (core.splitOn '.').mapM charsToNat? with
  | some [a] => some ⟨a, 0, 0⟩
  | some [a, b] => some ⟨a, b, 0⟩
  | some (a :: b :: c :: _) => some ⟨a, b, c⟩
  | _ => none

/-- One step of Python's `max(..., key=attrgetter("commit.committed_datetime"))`:
the running maximum is replaced only when the new element's key is
strictly greater, so the first maximal element encountered wins. -/
def pyMax2 (acc x : Tag) : Tag :=
  if acc.committedDatetime < x.committedDatetime then x else acc

/-- `max(repo.tags, key=operator.attrgetter("commit.committed_datetime"))`,
returning `none` instead of raising `ValueError` on an empty list. -/
def pyMaxTag : List Tag → Option Tag
  | [] => none
  | t :: ts => some (ts.foldl pyMax2 t)

/-- `f"{now.year}.{now.month}.{patch}"`. -/
def verStr (y m p : Nat) : String :=
  Nat.repr y ++ "." ++ Nat.repr m ++ "." ++ Nat.repr p

/-- The `patch` computed inside `_get_new_version`: `micro + 1` when the
latest tag parses and matches the current year and month, `0` when it
parses but does not match, and `0` when the `try` block raises
`ValueError` (no tags, or an unparseable tag name). -/
def pyPatch (repo : Repo) (now : Date) : Nat :=
  match pyMaxTag repo.tags with
  | none => 0
  | some latest_tag =>
    match parseVersion latest_tag.name with
    | none => 0
    | some last_version =>
      if last_version.major = now.year ∧ last_version.minor = now.month then
        last_version.micro + 1
      else 0

/-- `_get_new_version(repo)`, with the current UTC date passed explicitly. -/
def _get_new_version (repo : Repo) (now : Date) : String :=
  verStr now.year now.month (pyPatch repo now)

/-- `_is_already_tagged(repo)`. -/
def _is_already_tagged (repo : Repo) : Bool :=
  repo.headTagged

/-- `_should_skip_release(repo, skip_patterns)`: does any pattern occur in
the first line of HEAD's commit message. -/
def _should_skip_release (repo : Repo) (skip_patterns : List String) : Bool :=
  let commit_message := firstLine repo.headMessage
  skip_patterns.any fun pattern => strIn pattern commit_message

/-- `_get_commit_messages_since_last_release(repo)`. -/
def _get_commit_messages_since_last_release (repo : Repo) : String :=
  match pyMaxTag repo.tags with
  | some latest_tag => repo.logSince (some latest_tag.name)
  | none => repo.logSince none

/-- `_format_release_notes(commit_messages, new_version, footer)`. -/
def _format_release_notes (commit_messages new_version footer : String) : String :=
  let header := "🚀 Release " ++ new_version ++ "\n\n"
  let intro := "📝 This release includes the following changes:\n\n"
  let commit_list := pySplitLines commit_messages
  let formatted_commit_list := commit_list.map fun commit => "- " ++ commit
  let commit_section := pyJoinLines formatted_commit_list
  header ++ intro ++ commit_section ++ footer

/-- `skip_patterns or DEFAULT_SKIP_PATTERNS`: Python `or` falls through to
the default on `None` and on the empty (falsy) list. -/
def resolveSkipPatterns : Option (List String) → List String
  | some (p :: ps) => p :: ps
  | _ => DEFAULT_SKIP_PATTERNS

/-- `footer or DEFAULT_FOOTER`: Python `or` falls through to the default on
`None` and on the empty (falsy) string. -/
def resolveFooter : Option String → String
  | some f => if f = "" then DEFAULT_FOOTER else f
  | none => DEFAULT_FOOTER

/-- Is `"GITHUB_OUTPUT" in os.environ` true for this process environment. -/
def envHasGithubOutput (env : List (String × String)) : Bool :=
  env.any fun kv => kv.fst == "GITHUB_OUTPUT"

/-- `create_release(repo_path, skip_patterns, footer, dry_run)`.  The git
repository, the current UTC date and the process environment are passed
explicitly; the returned `Effects` records every mutation the Python
function performs (`_create_tag`, `_push_tag`, and the `GITHUB_OUTPUT`
append). -/
def create_release (repo : Repo) (now : Date) (skip_patterns : Option (List String))
    (footer : Option String) (dry_run : Bool) (env : List (String × String)) :
    Option String × Effects :=
  let patterns := resolveSkipPatterns skip_patterns
  let foot := resolveFooter footer
  if _is_already_tagged repo then (none, noEffects)
  else if _should_skip_release repo patterns then (none, noEffects)
  else
    let new_version := _get_new_version repo now
    let commit_messages := _get_commit_messages_since_last_release repo
    let release_notes := _format_release_notes commit_messages new_version foot
    if dry_run then (some new_version, noEffects)
    else
      (some new_version,
        { createdTags := [(new_version, "Release " ++ new_version ++ "\n\n" ++ release_notes)]
          pushedTags := [new_version]
          outputWrites :=
            if envHasGithubOutput env then ["version=" ++ new_version ++ "\n"] else [] })

/-- The argparse result of `cli()`: `--repo-path` (default `.`),
repeatable `--skip-pattern` (`None` when never given), `--footer`,
`--dry-run`. -/
structure CliArgs where
  repoPath : String
  skipPattern : Option (List String)
  footer : Option String
  dryRun : Bool

/-- `cli()`: parses argv (already done, `args`) and calls `create_release`
with exactly the parsed flags.  The function reads no `CALVER_*`
environment variables; `env` reaches only `create_release`, which consults
it solely for `GITHUB_OUTPUT`. -/
def cli (args : CliArgs) (repo : Repo) (now : Date) (env : List (String × String)) :
    Option String × Effects :=
  create_release repo now args.skipPattern args.footer args.dryRun env

/-! ### Helper lemmas -/

/-- `strIn` decides the substring (infix) relation on the underlying
character lists. -/
theorem strIn_iff (needle haystack : String) :
    strIn needle haystack = true ↔ needle.toList <:+: haystack.toList := by
  unfold strIn
  rw [List.any_eq_true]
  constructor
  · rintro ⟨t, ht, hp⟩
    rw [List.mem_tails] at ht
    rw [ List.isPrefixOf_iff_prefix] at hp
    exact List.infix_iff_prefix_suffix.mpr ⟨t, hp, ht⟩
  · intro h
    rcases List.infix_iff_prefix_suffix.mp h with ⟨t, hp, hs⟩
    refine ⟨t, (List.mem_tails _ _).mpr hs, ?_⟩
    rw [ List.isPrefixOf_iff_prefix]
    exact hp

/-- Each `pyMax2` step returns one of its two arguments. -/
theorem pyMax2_eq_or (t x : Tag) : pyMax2 t x = t ∨ pyMax2 t x = x := by
  unfold pyMax2
  split
  · right; rfl
  · left; rfl

/-- Both arguments of a `pyMax2` step are bounded by its result. -/
theorem pyMax2_le (t x : Tag) :
    t.committedDatetime ≤ (pyMax2 t x).committedDatetime ∧
      x.committedDatetime ≤ (pyMax2 t x).committedDatetime := by
  unfold pyMax2
  split <;> constructor <;> omega

/-- The `pyMax2` fold stays within the elements it has seen. -/
theorem foldl_pyMax2_mem : ∀ (ts : List Tag) (t : Tag), ts.foldl pyMax2 t ∈ t :: ts := by
  intro ts
  induction ts with
  | nil => intro t; simp
  | cons x xs ih =>
    intro t
    rw [List.foldl_cons]
    rcases pyMax2_eq_or t x with he | he <;> rw [he]
    · have h := ih t
      simp only [List.mem_cons] at h ⊢
      tauto
    · have h := ih x
      simp only [List.mem_cons] at h ⊢
      tauto

/-- The `pyMax2` fold result bounds every element it has seen. -/
theorem foldl_pyMax2_le : ∀ (ts : List Tag) (t : Tag), ∀ u ∈ t :: ts,
    u.committedDatetime ≤ (ts.foldl pyMax2 t).committedDatetime := by
  intro ts
  induction ts with
  | nil => intro t u hu; simp only [List.mem_singleton] at hu; simp [hu]
  | cons x xs ih =>
    intro t u hu
    rw [List.foldl_cons]
    have hstep := pyMax2_le t x
    have hacc : (pyMax2 t x).committedDatetime ≤
        (xs.foldl pyMax2 (pyMax2 t x)).committedDatetime :=
      ih (pyMax2 t x) _ (List.mem_cons_self _ _)
    simp only [List.mem_cons] at hu
    rcases hu with rfl | rfl | hu
    · exact le_trans hstep.1 hacc
    · exact le_trans hstep.2 hacc
    · exact ih (pyMax2 t x) u (List.mem_cons_of_mem _ hu)

/-- When the first element is already maximal (ties included), the
`pyMax2` fold keeps it: Python's `max` returns the first maximum. -/
theorem foldl_pyMax2_first : ∀ (ts : List Tag) (t : Tag),
    (∀ u ∈ ts, u.committedDatetime ≤ t.committedDatetime) → ts.foldl pyMax2 t = t := by
  intro ts
  induction ts with
  | nil => intro t _; rfl
  | cons x xs ih =>
    intro t h
    rw [List.foldl_cons]
    have hx : pyMax2 t x = t := by
      unfold pyMax2
      rw [if_neg]
      have := h x (List.mem_cons_self _ _)
      omega
    rw [hx]
    exact ih t fun u hu => h u (List.mem_cons_of_mem _ hu)

/-- The `pyMax2` fold picks the FIRST maximal element in enumeration
order: its input splits as `pre ++ result :: post` where everything in
`pre` has a strictly smaller timestamp. -/
theorem foldl_pyMax2_first_max :
    ∀ (xs : List Tag) (x : Tag), ∃ pre post,
      x :: xs = pre ++ (xs.foldl pyMax2 x) :: post ∧
      ∀ u ∈ pre, u.committedDatetime < (xs.foldl pyMax2 x).committedDatetime := by
  intro xs
  induction xs with
  | nil =>
    intro x
    exact ⟨[], [], rfl, by simp⟩
  | cons y ys ih =>
    intro x
    rw [List.foldl_cons]
    obtain ⟨pre1, post1, hdec, hlt⟩ := ih (pyMax2 x y)
    by_cases hxy : x.committedDatetime < y.committedDatetime
    · have hstep : pyMax2 x y = y := by
        unfold pyMax2
        rw [if_pos hxy]
      rw [hstep] at hdec hlt ⊢
      cases pre1 with
      | nil =>
        simp only [List.nil_append, List.cons.injEq] at hdec
        obtain ⟨hm, hpost⟩ := hdec
        refine ⟨[x], ys, ?_, ?_⟩
        · rw [List.singleton_append, ← hm]
        · intro u hu
          simp only [List.mem_singleton] at hu
          subst hu
          rw [← hm]
          exact hxy
      | cons p ps =>
        simp only [List.cons_append, List.cons.injEq] at hdec
        obtain ⟨hp, hys⟩ := hdec
        refine ⟨x :: y :: ps, post1, ?_, ?_⟩
        · rw [List.cons_append, List.cons_append, ← hys]
        · intro u hu
          have hym : y.committedDatetime < (ys.foldl pyMax2 y).committedDatetime := by
            apply hlt
            rw [hp]
            exact List.mem_cons_self _ _
          simp only [List.mem_cons] at hu
          rcases hu with rfl | rfl | hu
          · exact lt_trans hxy hym
          · exact hym
          · exact hlt u (List.mem_cons_of_mem _ hu)
    · have hyx : y.committedDatetime ≤ x.committedDatetime := Int.not_lt.mp hxy
      have hstep : pyMax2 x y = x := by
        unfold pyMax2
        rw [if_neg hxy]
      rw [hstep] at hdec hlt ⊢
      cases pre1 with
      | nil =>
        simp only [List.nil_append, List.cons.injEq] at hdec
        obtain ⟨hm, hpost⟩ := hdec
        refine ⟨[], y :: ys, ?_, by simp⟩
        rw [List.nil_append, ← hm]
      | cons p ps =>
        simp only [List.cons_append, List.cons.injEq] at hdec
        obtain ⟨hp, hys⟩ := hdec
        refine ⟨x :: y :: ps, post1, ?_, ?_⟩
        · rw [List.cons_append, List.cons_append, ← hys]
        · intro u hu
          have hxm : x.committedDatetime < (ys.foldl pyMax2 x).committedDatetime := by
            apply hlt
            rw [hp]
            exact List.mem_cons_self _ _
          simp only [List.mem_cons] at hu
          rcases hu with rfl | rfl | hu
          · exact hxm
          · exact lt_of_le_of_lt hyx hxm
          · exact hlt u (List.mem_cons_of_mem _ hu)

/-- `find?` over a decomposition whose prefix entirely fails the predicate
finds the split point. -/
theorem find?_append_first {α : Type} (p : α → Bool) :
    ∀ (pre : List α) (t : α) (post : List α), (∀ u ∈ pre, p u = false) → p t = true →
      (pre ++ t :: post).find? p = some t := by
  intro pre
  induction pre with
  | nil =>
    intro t post _ hpt
    rw [List.nil_append]
    exact List.find?_cons_of_pos post hpt
  | cons a as ih =>
    intro t post h hpt
    rw [List.cons_append]
    rw [List.find?_cons_of_neg _ (by simp [h a (List.mem_cons_self a as)])]
    exact ih t post (fun u hu => h u (List.mem_cons_of_mem _ hu)) hpt

/-- Rebuilding a string from its character list is the identity. -/
theorem asString_toList (s : String) : List.asString s.toList = s := rfl

/-- The characters of `pyJoinLines xs`. -/
theorem pyJoinLines_toList (xs : List String) :
    (pyJoinLines xs).toList = List.intercalate ['\n'] (xs.map String.toList) := rfl

/-- Splitting on newlines is a left inverse of joining with newlines, for a
nonempty list of newline-free pieces. -/
theorem pySplitLines_pyJoinLines (xs : List String) (hne : xs ≠ [])
    (h : ∀ s ∈ xs, '\n' ∉ s.toList) : pySplitLines (pyJoinLines xs) = xs := by
  unfold pySplitLines
  rw [pyJoinLines_toList]
  have hx : ∀ l ∈ xs.map String.toList, '\n' ∉ l := by
    intro l hl
    rcases List.mem_map.mp hl with ⟨s, hs, rfl⟩
    exact h s hs
  have hls : xs.map String.toList ≠ [] := by
    simpa using hne
  rw [show List.intercalate ['\n'] (xs.map String.toList) =
      ['\n'].intercalate (xs.map String.toList) from rfl]
  rw [List.splitOn_intercalate _ '\n' hx hls]
  rw [List.map_map]
  have hcomp : List.asString ∘ String.toList = id := funext asString_toList
  rw [hcomp, List.map_id]

/-- Every character `Nat.toDigitsCore` emits beyond its accumulator is a
decimal digit. -/
theorem toDigitsCore_digits :
    ∀ (fuel n : Nat) (ds : List Char), ∀ c ∈ Nat.toDigitsCore 10 fuel n ds,
      c ∈ ds ∨ c.isDigit = true := by
  intro fuel
  induction fuel with
  | zero => intro n ds c hc; exact Or.inl hc
  | succ fuel ih =>
    intro n ds c hc
    have hd : (Nat.digitChar (n % 10)).isDigit = true := by
      have hlt : n % 10 < 10 := Nat.mod_lt _ (by omega)
      interval_cases h : n % 10 <;> decide
    rw [Nat.toDigitsCore] at hc
    by_cases hz : n / 10 = 0
    · rw [if_pos hz] at hc
      rcases List.mem_cons.mp hc with rfl | hc
      · exact Or.inr hd
      · exact Or.inl hc
    · rw [if_neg hz] at hc
      rcases ih (n / 10) _ c hc with hmem | hdig
      · rcases List.mem_cons.mp hmem with rfl | hmem
        · exact Or.inr hd
        · exact Or.inl hmem
      · exact Or.inr hdig

/-- A `toDigitsCore` call with a nonempty accumulator stays nonempty. -/
theorem toDigitsCore_ne_nil :
    ∀ (fuel n : Nat) (ds : List Char), ds ≠ [] → Nat.toDigitsCore 10 fuel n ds ≠ [] := by
  intro fuel
  induction fuel with
  | zero => intro n ds h; exact h
  | succ fuel ih =>
    intro n ds _
    rw [Nat.toDigitsCore]
    by_cases hz : n / 10 = 0
    · rw [if_pos hz]; exact List.cons_ne_nil _ _
    · rw [if_neg hz]; exact ih (n / 10) _ (List.cons_ne_nil _ _)

/-- Every character of the decimal representation of a natural number is a
digit. -/
theorem repr_all_digit (n : Nat) : ∀ c ∈ (Nat.repr n).toList, c.isDigit = true := by
  intro c hc
  have : c ∈ ([] : List Char) ∨ c.isDigit = true := by
    apply toDigitsCore_digits (n + 1) n []
    exact hc
  simpa using this

/-- The decimal representation of a natural number is never empty. -/
theorem repr_ne_nil (n : Nat) : (Nat.repr n).toList ≠ [] := by
  show Nat.toDigitsCore 10 (n + 1) n [] ≠ []
  rw [Nat.toDigitsCore]
  by_cases hz : n / 10 = 0
  · rw [if_pos hz]; exact List.cons_ne_nil _ _
  · rw [if_neg hz]; exact toDigitsCore_ne_nil n (n / 10) _ (List.cons_ne_nil _ _)

/-- The characters of `verStr y m p`: the decimal digits of the three
numbers, separated by dots. -/
theorem verStr_toList (y m p : Nat) :
    (verStr y m p).toList =
      (Nat.repr y).toList ++ '.' :: ((Nat.repr m).toList ++ '.' :: (Nat.repr p).toList) := by
  have hdot : (".").toList = ['.'] := rfl
  simp [verStr, String.toList, hdot]

/-- A dot never occurs among the digits of `Nat.repr`. -/
theorem dot_not_mem_repr (n : Nat) : '.' ∉ (Nat.repr n).toList := by
  intro h
  have := repr_all_digit n '.' h
  simp at this

/-- Splitting `verStr y m p` on dots recovers exactly the three decimal
components. -/
theorem verStr_splitOn (y m p : Nat) :
    (verStr y m p).toList.splitOn '.' =
      [(Nat.repr y).toList, (Nat.repr m).toList, (Nat.repr p).toList] := by
  have h3 : List.intercalate ['.']
      [(Nat.repr y).toList, (Nat.repr m).toList, (Nat.repr p).toList] =
      (Nat.repr y).toList ++ '.' :: ((Nat.repr m).toList ++ '.' :: (Nat.repr p).toList) := by
    simp [List.intercalate]
  rw [verStr_toList, ← h3]
  apply List.splitOn_intercalate
  · intro l hl
    simp only [List.mem_cons, List.not_mem_nil, or_false] at hl
    rcases hl with rfl | rfl | rfl <;> exact dot_not_mem_repr _
  · simp

/-- The first character of `verStr y m p` is a decimal digit; in
particular the string carries no letter prefix. -/
theorem verStr_head_digit (y m p : Nat) :
    ∀ c, (verStr y m p).toList.head? = some c → c.isDigit = true := by
  intro c hc
  rw [verStr_toList] at hc
  rcases hy : (Nat.repr y).toList with _ | ⟨c0, cs⟩
  · exact absurd hy (repr_ne_nil y)
  · rw [hy] at hc
    simp only [List.cons_append, List.head?_cons, Option.some.injEq] at hc
    subst hc
    exact repr_all_digit y c0 (by rw [hy]; exact List.mem_cons_self _ _)

/-- If `create_release` returns a version at all, it is `_get_new_version`'s
result. -/
theorem create_release_fst_cases (repo : Repo) (now : Date) (sp : Option (List String))
    (f : Option String) (dr : Bool) (env : List (String × String)) :
    (create_release repo now sp f dr env).1 = none ∨
    (create_release repo now sp f dr env).1 = some (_get_new_version repo now) := by
  unfold create_release
  by_cases ht : _is_already_tagged repo
  · simp [ht]
  · by_cases hs : _should_skip_release repo (resolveSkipPatterns sp)
    · simp [ht, hs]
    · by_cases hd : dr
      · simp [ht, hs, hd]
      · simp [ht, hs, hd]

/-! ### Concrete fixtures -/

/-- May 2024, as a current UTC date. -/
def dateMay : Date := ⟨2024, 5⟩

/-- June 2024, as a current UTC date. -/
def dateJune : Date := ⟨2024, 6⟩

/-- January 2024, as a current UTC date. -/
def dateJan : Date := ⟨2024, 1⟩

/-- A well-formed CalVer tag for May 2024. -/
def tagA : Tag := ⟨"2024.5.0", 100⟩

/-- A tag whose name is not parseable as a version. -/
def tagBad : Tag := ⟨"not-a-version", 5⟩

/-- First of two tags sharing the same committed timestamp. -/
def tieTag1 : Tag := ⟨"2024.1.0", 50⟩

/-- Second of two tags sharing the same committed timestamp. -/
def tieTag2 : Tag := ⟨"2023.12.5", 50⟩

/-- A repository with no tags and an ordinary HEAD commit. -/
def repoEmptyTags : Repo := ⟨[], "Initial commit", false, fun _ => "Initial commit"⟩

/-- A repository whose latest (only) tag is `2024.5.0`, HEAD untagged. -/
def repoWithTagA : Repo := ⟨[tagA], "Second commit", false, fun _ => "Second commit"⟩

/-- A repository whose only tag has an unparseable name. -/
def repoBadTag : Repo := ⟨[tagBad], "Some commit", false, fun _ => "Some commit"⟩

/-- A repository whose HEAD commit is already tagged. -/
def repoTagged : Repo := ⟨[tagA], "Second commit", true, fun _ => ""⟩

/-- A repository whose HEAD message first line matches only the default
skip pattern list. -/
def repoDefaultSkip : Repo :=
  ⟨[], "[skip release] something", false, fun _ => "[skip release] something"⟩

/-- Same first line as `repoDefaultSkip`, with trailing message lines. -/
def repoSkipTrailing : Repo :=
  ⟨[], "[skip release] something\nmore\ntrailing lines", false, fun _ => ""⟩

/-- A repository holding two tags with equal committed timestamps. -/
def repoTie : Repo := ⟨[tieTag1, tieTag2], "m", false, fun _ => "m"⟩

/-- A low-timestamp tag preceding a tie between later tags. -/
def tieLow : Tag := ⟨"2023.4.0", 1⟩

/-- First of two tied maximal tags that do NOT head the enumeration. -/
def tieB : Tag := ⟨"2024.1.0", 5⟩

/-- Second of two tied maximal tags that do NOT head the enumeration. -/
def tieC : Tag := ⟨"2023.12.5", 5⟩

/-- A repository whose maximal-timestamp tie sits in the middle of the
enumeration: the tie winner is not the head of the tag list. -/
def repoTie3 : Repo := ⟨[tieLow, tieB, tieC], "m", false, fun _ => "m"⟩

/-- A process environment setting the `CALVER_*` variables the spec
documents, including `CALVER_DRY_RUN=true`. -/
def calverEnv : List (String × String) :=
  [("CALVER_DRY_RUN", "true"), ("CALVER_SKIP_PATTERNS", "[zzz]"),
   ("CALVER_FOOTER", "env footer")]

/-- The argparse result when no flag beyond defaults is given:
`dry_run = false`, no skip patterns, no footer. -/
def argsNoFlags : CliArgs := ⟨".", none, none, false⟩

/-! ### Claims -/

/-- Claim C1: with no prior tag `_get_new_version` returns `Y.M.0` for the
current UTC year `Y` and month `M`; when the latest tag parses as
`(major, minor, micro)` with `major = Y` and `minor = M` it returns
`Y.M.(micro+1)`; when the parsed year or month differs it returns `Y.M.0`
regardless of the previous patch value. -/
theorem getNewVersion_cases (repo : Repo) (now : Date) :
    (repo.tags = [] → _get_new_version repo now = verStr now.year now.month 0) ∧
    (∀ t v, pyMaxTag repo.tags = some t → parseVersion t.name = some v →
      ((v.major = now.year ∧ v.minor = now.month) →
        _get_new_version repo now = verStr now.year now.month (v.micro + 1)) ∧
      (¬(v.major = now.year ∧ v.minor = now.month) →
        _get_new_version repo now = verStr now.year now.month 0)) := by
  constructor
  · intro h
    simp [_get_new_version, pyPatch, pyMaxTag, h]
  · intro t v ht hv
    have hpatch : pyPatch repo now =
        if v.major = now.year ∧ v.minor = now.month then v.micro + 1 else 0 := by
      simp only [pyPatch, ht, hv]
    constructor
    · intro hm
      unfold _get_new_version
      rw [hpatch, if_pos hm]
    · intro hm
      unfold _get_new_version
      rw [hpatch, if_neg hm]

/-- Witness for C1: all three branches at concrete repositories. -/
theorem getNewVersion_cases_witness :
    _get_new_version repoEmptyTags dateMay = verStr 2024 5 0 ∧
    _get_new_version repoWithTagA dateMay = verStr 2024 5 1 ∧
    _get_new_version repoWithTagA dateJune = verStr 2024 6 0 := by
  refine ⟨(getNewVersion_cases repoEmptyTags dateMay).1 rfl, ?_, ?_⟩
  · exact ((getNewVersion_cases repoWithTagA dateMay).2 tagA ⟨2024, 5, 0⟩ rfl
      (by decide)).1 (by decide)
  · exact ((getNewVersion_cases repoWithTagA dateJune).2 tagA ⟨2024, 5, 0⟩ rfl
      (by decide)).2 (by decide)

/-- Claim C2: `create_release` performs side effects only on the Released
path: already-tagged HEAD and matching skip patterns return `None` with no
effects, and a dry run returns the version string with no tag creation, no
push and no output-file write. -/
theorem create_release_frame (repo : Repo) (now : Date) (sp : Option (List String))
    (f : Option String) (dr : Bool) (env : List (String × String)) :
    (repo.headTagged = true → create_release repo now sp f dr env = (none, noEffects)) ∧
    (_should_skip_release repo (resolveSkipPatterns sp) = true →
      create_release repo now sp f dr env = (none, noEffects)) ∧
    (dr = true → (create_release repo now sp f dr env).2 = noEffects) ∧
    (dr = true → repo.headTagged = false →
      _should_skip_release repo (resolveSkipPatterns sp) = false →
      (create_release repo now sp f dr env).1 = some (_get_new_version repo now)) := by
  refine ⟨?_, ?_, ?_, ?_⟩
  · intro h
    simp [create_release, _is_already_tagged, h]
  · intro h
    by_cases ht : repo.headTagged
    · simp [create_release, _is_already_tagged, ht]
    · simp [create_release, _is_already_tagged, ht, h]
  · intro h
    by_cases ht : repo.headTagged
    · simp [create_release, _is_already_tagged, ht]
    · by_cases hs : _should_skip_release repo (resolveSkipPatterns sp)
      · simp [create_release, _is_already_tagged, ht, hs]
      · simp [create_release, _is_already_tagged, ht, hs, h]
  · intro h ht hs
    simp [create_release, _is_already_tagged, ht, hs, h]

/-- Witness for C2: the three non-Released outcomes at concrete inputs. -/
theorem create_release_frame_witness :
    create_release repoTagged dateMay none none false [] = (none, noEffects) ∧
    (create_release repoEmptyTags dateMay none none true []).2 = noEffects ∧
    (create_release repoEmptyTags dateMay none none true []).1 =
      some (_get_new_version repoEmptyTags dateMay) ∧
    create_release repoDefaultSkip dateMay none none false [] = (none, noEffects) :=
  ⟨(create_release_frame repoTagged dateMay none none false []).1 rfl,
   (create_release_frame repoEmptyTags dateMay none none true []).2.2.1 rfl,
   (create_release_frame repoEmptyTags dateMay none none true []).2.2.2 rfl rfl (by decide),
   (create_release_frame repoDefaultSkip dateMay none none false []).2.1 (by decide)⟩

/-- Claim C3: `_should_skip_release` is true exactly when some pattern is a
literal substring of the first line of HEAD's commit message, and the
result depends on the message only through that first line. -/
theorem should_skip_first_line_spec (repo : Repo) (patterns : List String) :
    (_should_skip_release repo patterns = true ↔
      ∃ p ∈ patterns, p.toList <:+: (firstLine repo.headMessage).toList) ∧
    (∀ repo2 : Repo, firstLine repo2.headMessage = firstLine repo.headMessage →
      _should_skip_release repo2 patterns = _should_skip_release repo patterns) := by
  constructor
  · show patterns.any (fun pattern => strIn pattern (firstLine repo.headMessage)) = true ↔ _
    rw [List.any_eq_true]
    constructor
    · rintro ⟨p, hp, hin⟩
      exact ⟨p, hp, (strIn_iff p _).mp hin⟩
    · rintro ⟨p, hp, hin⟩
      exact ⟨p, hp, (strIn_iff p _).mpr hin⟩
  · intro repo2 h
    show patterns.any (fun pattern => strIn pattern (firstLine repo2.headMessage)) =
      patterns.any (fun pattern => strIn pattern (firstLine repo.headMessage))
    rw [h]

/-- Witness for C3: trailing lines do not change the skip decision. -/
theorem should_skip_first_line_witness :
    _should_skip_release repoSkipTrailing DEFAULT_SKIP_PATTERNS =
      _should_skip_release repoDefaultSkip DEFAULT_SKIP_PATTERNS :=
  (should_skip_first_line_spec repoDefaultSkip DEFAULT_SKIP_PATTERNS).2
    repoSkipTrailing (by decide)

/-- Claim C4 (code bug): `cli` reads no `CALVER_*` environment variable.
With `CALVER_DRY_RUN=true` set and no `--dry-run` flag, the code still
creates and pushes a tag, contradicting the spec and the repository's own
test `test_cli_environment_variables`, which expects no tag creation. -/
theorem cli_ignores_calver_env :
    (cli argsNoFlags repoEmptyTags dateMay calverEnv).2.pushedTags = ["2024.5.0"] ∧
    (cli argsNoFlags repoEmptyTags dateMay calverEnv).2.createdTags ≠ [] ∧
    (cli argsNoFlags repoEmptyTags dateMay calverEnv).1 = some "2024.5.0" := by
  refine ⟨by decide, by decide, by decide⟩

/-- Counterexample for C5: supplying the empty pattern list does not
replace the defaults — a commit matching only a default pattern is still
skipped, because Python's `or` treats the empty list as absent. -/
theorem create_release_empty_patterns_cex :
    (create_release repoDefaultSkip dateMay (some []) none true []).1 = none ∧
    resolveSkipPatterns (some []) = DEFAULT_SKIP_PATTERNS := by
  refine ⟨by decide, rfl⟩

/-- Claim C5 (amended): every NON-EMPTY caller-supplied pattern list fully
replaces the defaults; a HEAD commit matching only a default pattern is
not skipped when a disjoint non-empty custom pattern list is supplied. -/
theorem custom_patterns_replace_defaults (repo : Repo) (now : Date) (p : String)
    (ps : List String) (f : Option String) (env : List (String × String)) :
    resolveSkipPatterns (some (p :: ps)) = p :: ps ∧
    (repo.headTagged = false → _should_skip_release repo (p :: ps) = false →
      (create_release repo now (some (p :: ps)) f true env).1 =
        some (_get_new_version repo now)) := by
  refine ⟨rfl, ?_⟩
  intro ht hs
  simp [create_release, _is_already_tagged, resolveSkipPatterns, ht, hs]

/-- Witness for C5: a commit matching only `"[skip release]"` is released
when the custom list `["[custom-skip]"]` is supplied. -/
theorem custom_patterns_replace_defaults_witness :
    (create_release repoDefaultSkip dateMay (some ["[custom-skip]"]) none true []).1 =
      some (_get_new_version repoDefaultSkip dateMay) :=
  (custom_patterns_replace_defaults repoDefaultSkip dateMay "[custom-skip]" [] none []).2
    rfl (by decide)

/-- Claim C6: an unparseable latest tag name, like an empty tag set, is not
an error: `_get_new_version` falls back to patch 0 and returns `Y.M.0`. -/
theorem malformed_tag_fallback (repo : Repo) (now : Date) :
    (repo.tags = [] → _get_new_version repo now = verStr now.year now.month 0) ∧
    (∀ t, pyMaxTag repo.tags = some t → parseVersion t.name = none →
      _get_new_version repo now = verStr now.year now.month 0) := by
  constructor
  · intro h
    simp [_get_new_version, pyPatch, pyMaxTag, h]
  · intro t ht hv
    have hpatch : pyPatch repo now = 0 := by
      simp only [pyPatch, ht, hv]
    unfold _get_new_version
    rw [hpatch]

/-- Witness for C6: a repository whose only tag is `not-a-version`. -/
theorem malformed_tag_fallback_witness :
    _get_new_version repoBadTag dateMay = verStr 2024 5 0 :=
  (malformed_tag_fallback repoBadTag dateMay).2 tagBad rfl (by decide)

/-- Counterexample for C7: on an empty commit history (git log output is
the empty string) the bullet section is a lone `"- "` bullet, not empty,
so the notes differ from the claimed concatenation with an empty join. -/
theorem format_release_notes_empty_cex :
    _format_release_notes (pyJoinLines []) "2024.1.0" "FOOTER" =
      "🚀 Release 2024.1.0\n\n📝 This release includes the following changes:\n\n- FOOTER" ∧
    _format_release_notes (pyJoinLines []) "2024.1.0" "FOOTER" ≠
      "🚀 Release 2024.1.0\n\n📝 This release includes the following changes:\n\nFOOTER" := by
  refine ⟨by decide, by decide⟩

/-- Claim C7 (amended): for every NON-EMPTY sequence of newline-free commit
subjects, the notes are exactly the header, the intro, the subjects each
prefixed with `"- "` and joined by newlines, then the footer; an empty
history yields a single empty bullet (`"- "`) rather than a crash. -/
theorem format_release_notes_spec (subjects : List String) (hne : subjects ≠ [])
    (h : ∀ s ∈ subjects, '\n' ∉ s.toList) (v f : String) :
    _format_release_notes (pyJoinLines subjects) v f =
      "🚀 Release " ++ v ++ "\n\n" ++ "📝 This release includes the following changes:\n\n" ++
        pyJoinLines (subjects.map fun s => "- " ++ s) ++ f := by
  unfold _format_release_notes
  rw [pySplitLines_pyJoinLines subjects hne h]

/-- Witness for C7: two subjects produce two bullets in order. -/
theorem format_release_notes_spec_witness :
    _format_release_notes (pyJoinLines ["First commit", "Second commit"]) "2024.1.0"
        DEFAULT_FOOTER =
      "🚀 Release " ++ "2024.1.0" ++ "\n\n" ++
        "📝 This release includes the following changes:\n\n" ++
        pyJoinLines ["- First commit", "- Second commit"] ++ DEFAULT_FOOTER :=
  format_release_notes_spec ["First commit", "Second commit"] (by decide) (by decide)
    "2024.1.0" DEFAULT_FOOTER

/-- Counterexample for C8: on a timestamp tie Python's `max` keeps the
FIRST tag encountered, not the last: with two equal-timestamp tags the
first (`2024.1.0`) is selected, and in January 2024 the version continues
its patch counter (`2024.1.1`) instead of resetting as the last
tag (`2023.12.5`) would dictate. -/
theorem latest_tag_tie_cex :
    tieTag1.committedDatetime = tieTag2.committedDatetime ∧
    tieTag1 ≠ tieTag2 ∧
    repoTie.tags = [tieTag1, tieTag2] ∧
    pyMaxTag repoTie.tags = some tieTag1 ∧
    _get_new_version repoTie dateJan = "2024.1.1" := by
  refine ⟨rfl, by decide, rfl, by decide, by decide⟩

/-- Claim C8 (amended): the latest tag used by version calculation and
commit aggregation is a tag of maximal committed timestamp; on every tie
the FIRST tag encountered in enumeration order wins — `pyMaxTag` equals
`find?` of the first tag whose timestamp bounds every tag's timestamp —
and an empty tag set yields `none`, not an error. -/
theorem latest_tag_selection (repo : Repo) :
    (repo.tags = [] → pyMaxTag repo.tags = none) ∧
    (∀ t, pyMaxTag repo.tags = some t →
      t ∈ repo.tags ∧ ∀ u ∈ repo.tags, u.committedDatetime ≤ t.committedDatetime) ∧
    pyMaxTag repo.tags =
      repo.tags.find? (fun s =>
        repo.tags.all fun u => decide (u.committedDatetime ≤ s.committedDatetime)) ∧
    _get_commit_messages_since_last_release repo =
      (match pyMaxTag repo.tags with
       | some latest_tag => repo.logSince (some latest_tag.name)
       | none => repo.logSince none) := by
  refine ⟨?_, ?_, ?_, rfl⟩
  · intro h
    rw [h]
    rfl
  · intro t ht
    rcases hl : repo.tags with _ | ⟨x, xs⟩
    · rw [hl] at ht
      simp [pyMaxTag] at ht
    · rw [hl] at ht
      have hfold : xs.foldl pyMax2 x = t := by
        simpa [pyMaxTag] using ht
      constructor
      · rw [← hfold]
        exact foldl_pyMax2_mem xs x
      · intro u hu
        rw [← hfold]
        exact foldl_pyMax2_le xs x u hu
  · rcases hl : repo.tags with _ | ⟨x, xs⟩
    · rfl
    · obtain ⟨pre, post, hdec, hlt⟩ := foldl_pyMax2_first_max xs x
      have hmax := foldl_pyMax2_le xs x
      have hmem := foldl_pyMax2_mem xs x
      have hpt : ((x :: xs).all fun u =>
          decide (u.committedDatetime ≤ (xs.foldl pyMax2 x).committedDatetime)) = true := by
        rw [List.all_eq_true]
        intro u hu
        exact decide_eq_true (hmax u hu)
      have hpre : ∀ u ∈ pre, ((x :: xs).all fun v =>
          decide (v.committedDatetime ≤ u.committedDatetime)) = false := by
        intro u hu
        rw [List.all_eq_false]
        refine ⟨xs.foldl pyMax2 x, hmem, ?_⟩
        simp only [decide_eq_true_eq]
        have := hlt u hu
        omega
      calc pyMaxTag (x :: xs) = some (xs.foldl pyMax2 x) := rfl
        _ = ((pre ++ (xs.foldl pyMax2 x) :: post).find? fun s =>
              (x :: xs).all fun u => decide (u.committedDatetime ≤ s.committedDatetime)) :=
          (find?_append_first _ pre _ post hpre hpt).symm
        _ = ((x :: xs).find? fun s =>
              (x :: xs).all fun u => decide (u.committedDatetime ≤ s.committedDatetime)) := by
          rw [← hdec]

/-- Witness for C8: a repository whose maximal-timestamp tie is in the
middle of the enumeration; the first of the tied tags is selected, the
selection is maximal, and it agrees with the first-maximal `find?`. -/
theorem latest_tag_selection_witness :
    (tieB ∈ repoTie3.tags ∧
      ∀ u ∈ repoTie3.tags, u.committedDatetime ≤ tieB.committedDatetime) ∧
    pyMaxTag repoTie3.tags =
      repoTie3.tags.find? (fun s =>
        repoTie3.tags.all fun u => decide (u.committedDatetime ≤ s.committedDatetime)) ∧
    pyMaxTag repoTie3.tags = some tieB ∧
    tieB.committedDatetime = tieC.committedDatetime ∧ tieB ≠ tieC :=
  ⟨(latest_tag_selection repoTie3).2.1 tieB (by decide),
   (latest_tag_selection repoTie3).2.2.1,
   by decide, rfl, by decide⟩

/-- Claim C9: every version `_get_new_version` returns — and hence every
version `create_release` returns on the DryRun and Released paths — is
exactly three dot-separated base-10 integers whose first two components
are the current UTC year and month, with a digit as its first character
(no letter prefix such as `v`). -/
theorem version_shape (repo : Repo) (now : Date) (sp : Option (List String))
    (f : Option String) (dr : Bool) (env : List (String × String)) :
    (∃ p : Nat,
      _get_new_version repo now = verStr now.year now.month p ∧
      (_get_new_version repo now).toList.splitOn '.' =
        [(Nat.repr now.year).toList, (Nat.repr now.month).toList, (Nat.repr p).toList]) ∧
    (∀ c, (_get_new_version repo now).toList.head? = some c → c.isDigit = true) ∧
    (∀ v, (create_release repo now sp f dr env).1 = some v →
      ∃ p : Nat, v = verStr now.year now.month p) := by
  refine ⟨⟨pyPatch repo now, rfl, verStr_splitOn _ _ _⟩, ?_, ?_⟩
  · exact fun c hc => verStr_head_digit now.year now.month (pyPatch repo now) c hc
  · intro v hv
    rcases create_release_fst_cases repo now sp f dr env with hc | hc
    · rw [hc] at hv
      cases hv
    · rw [hc] at hv
      obtain rfl := Option.some.inj hv
      exact ⟨pyPatch repo now, rfl⟩

/-- Witness for C9: the version returned by a concrete dry run has the
`Y.M.P` shape. -/
theorem version_shape_witness :
    ∃ p : Nat, ("2024.5.0" : String) = verStr 2024 5 p :=
  (version_shape repoEmptyTags dateMay none none true []).2.2 "2024.5.0" (by decide)

/-- Claim C10: an empty skip-pattern list and an empty footer are treated
as absent — `create_release` then uses the default patterns and the
default footer, exactly as when called with `None`. -/
theorem falsy_args_use_defaults (repo : Repo) (now : Date) (dr : Bool)
    (env : List (String × String)) :
    resolveSkipPatterns (some []) = DEFAULT_SKIP_PATTERNS ∧
    resolveFooter (some "") = DEFAULT_FOOTER ∧
    create_release repo now (some []) (some "") dr env =
      create_release repo now none none dr env := by
  refine ⟨rfl, rfl, rfl⟩

end CalverAutoRelease
